import Mathlib

/-!
Verification of the NetGuard WFP callout driver (src/driver/netguard_wfp.c).

The driver's arbitration core is embedded shallowly:

* the global `NETGUARD_CONTEXT` becomes a Lean structure holding the fields
  the arbitration logic reads and writes (`Enabled`, the pending-connection
  array as a list of its first `PendingCount` records, the allowed/blocked
  app array as a list of its first `AllowedCount` records, and the three
  64-bit statistics counters);
* `NetGuardClassifyFn`, `AddPendingConnection`, `IsAppInList` and the four
  state-touching IOCTL arms of `NetGuardDeviceControl` become pure functions
  from a context (plus the call's inputs) to a result and an updated context;
* 64-bit counters are natural numbers reduced modulo `2 ^ 64` exactly where
  the C code performs `InterlockedIncrement64`;
* wide-character strings (`WCHAR` buffers) are lists of code units; the
  case-insensitive `_wcsicmp` equality is modelled by comparing the
  characters after ASCII lower-casing.  The driver's classify function
  receives the executable path already marshalled into a 512-`WCHAR`
  zero-terminated buffer, so its logical path never exceeds
  `MAX_PATH_LENGTH - 1` characters; the embedding passes that logical
  string directly.

Array slots beyond `PendingCount` (respectively `AllowedCount`) are never
read by the driver — `IOCTL_NETGUARD_GET_PENDING` copies at most
`PendingCount * sizeof(PENDING_CONNECTION)` bytes from the front of the
array and the scan loops stop at the count — so representing only the
in-use prefix as a list is a faithful model of the observable state.
-/

/-- `MAX_PENDING_CONNECTIONS` from the C source. -/
def MAX_PENDING_CONNECTIONS : Nat := 256

/-- `MAX_ALLOWED_APPS` from the C source. -/
def MAX_ALLOWED_APPS : Nat := 1024

/-- `MAX_PATH_LENGTH` from the C source (in `WCHAR` units). -/
def MAX_PATH_LENGTH : Nat := 512

/-- Modulus of the 64-bit unsigned counters. -/
def U64 : Nat := 2 ^ 64

/-- `sizeof(PENDING_CONNECTION)` under the MSVC x64 layout the driver is
built with: 8 (`connectionId`) + 4 (`processId`) + 1024 (`processPath`) +
4 (`remoteIp`) + 2 (`remotePort`) + 6 (padding to align the 8-byte
`LARGE_INTEGER`) + 8 (`timestamp`) + 1 (`responded`) + 1 (`allowed`) +
6 (trailing padding to the 8-byte struct alignment) = 1064 bytes. -/
def SIZEOF_PENDING_CONNECTION : Nat := 1064

/-- `sizeof(ALLOWED_APP)`: 1024 (`processPath`) + 1 (`blocked`) + 1
(trailing padding to the 2-byte struct alignment) = 1026 bytes. -/
def SIZEOF_ALLOWED_APP : Nat := 1026

/-- One record of the driver's `PENDING_CONNECTION` structure.
`processPath` holds the wide characters stored by `wcsncpy` (at most
`MAX_PATH_LENGTH - 1` of them; the untouched remainder of the C buffer is
zero, which the byte serialisation below reproduces).  `timestamp` is the
`KeQuerySystemTime` value. -/
structure PENDING_CONNECTION where
  connectionId : Nat
  processId : Nat
  processPath : List Nat
  remoteIp : Nat
  remotePort : Nat
  timestamp : Nat
  responded : Bool
  allowed : Bool
deriving DecidableEq, Repr

/-- One record of the driver's `ALLOWED_APP` structure:
`blocked = true` means a Block registry entry, `false` an Allow entry. -/
structure ALLOWED_APP where
  processPath : List Nat
  blocked : Bool
deriving DecidableEq, Repr

/-- The observable fields of the driver's global `NETGUARD_CONTEXT`:
enforcement flag, the active prefixes of the two arrays, and the three
statistics counters.  Device/engine handles, locks and the event object
carry no arbitration state and are omitted. -/
structure NETGUARD_CONTEXT where
  Enabled : Bool
  PendingConnections : List PENDING_CONNECTION
  AllowedApps : List ALLOWED_APP
  TotalConnections : Nat
  BlockedConnections : Nat
  AllowedConnections : Nat
deriving DecidableEq, Repr

/-- The zero-initialised context produced by `DriverEntry`
(`RtlZeroMemory(&g_Context, ...)`): enforcement disabled, both arrays
empty, all counters zero. -/
def initContext : NETGUARD_CONTEXT :=
  { Enabled := false
    PendingConnections := []
    AllowedApps := []
    TotalConnections := 0
    BlockedConnections := 0
    AllowedConnections := 0 }

/-- ASCII lower-casing of one wide character, the case folding performed
by `_wcsicmp` on the paths the driver compares. -/
def towlower (c : Nat) : Nat := if 65 ≤ c ∧ c ≤ 90 then c + 32 else c

/-- `_wcsicmp(a, b) == 0`: the two strings are equal up to case. -/
def wcsicmpEq (a b : List Nat) : Bool :=
  a.map towlower == b.map towlower

/-- `IsAppInList`: linear scan of the allowed/blocked app array, first
case-insensitive match wins.  Returns `some blocked` when a matching entry
exists (the C function sets `*isBlocked` and returns 1) and `none`
otherwise (the C function returns 0). -/
def IsAppInList (apps : List ALLOWED_APP) (processPath : List Nat) : Option Bool :=
  match apps with
  | [] => none
  | a :: rest =>
    if wcsicmpEq a.processPath processPath then some a.blocked
    else IsAppInList rest processPath

/-- `AddPendingConnection`: if the pending array has room, increment the
64-bit `TotalConnections` counter (`InterlockedIncrement64`, hence the
`% U64`), use the incremented value as the fresh connection id, append the
new record (with `wcsncpy`'s truncation to `MAX_PATH_LENGTH - 1`
characters, `responded = allowed = FALSE`) and return the id; otherwise
return 0 and change nothing. -/
def AddPendingConnection (s : NETGUARD_CONTEXT) (processId : Nat)
    (processPath : List Nat) (remoteIp remotePort now : Nat) :
    Nat × NETGUARD_CONTEXT :=
  if s.PendingConnections.length < MAX_PENDING_CONNECTIONS then
    let connectionId := (s.TotalConnections + 1) % U64
    let conn : PENDING_CONNECTION :=
      { connectionId := connectionId
        processId := processId
        processPath := processPath.take (MAX_PATH_LENGTH - 1)
        remoteIp := remoteIp
        remotePort := remotePort
        timestamp := now
        responded := false
        allowed := false }
    (connectionId,
      { s with
          TotalConnections := connectionId
          PendingConnections := s.PendingConnections ++ [conn] })
  else (0, s)

/-- The WFP classification verdict written to `classifyOut->actionType`. -/
inductive FWP_ACTION where
  | PERMIT
  | BLOCK
deriving DecidableEq, Repr

/-- `NetGuardClassifyFn`, the per-connection arbitration decision:
default PERMIT; early PERMIT when enforcement is disabled; early PERMIT
for the system process ids 0 and 4; registry hit decides (Block entry:
BLOCK and `BlockedConnections++`; Allow entry: PERMIT and
`AllowedConnections++`); otherwise admit to the pending queue and BLOCK
exactly when a non-zero connection id came back. -/
def NetGuardClassifyFn (s : NETGUARD_CONTEXT) (processId : Nat)
    (processPath : List Nat) (remoteIp remotePort now : Nat) :
    FWP_ACTION × NETGUARD_CONTEXT :=
  if s.Enabled = false then (FWP_ACTION.PERMIT, s)
  else if processId = 0 ∨ processId = 4 then (FWP_ACTION.PERMIT, s)
  else
    match IsAppInList s.AllowedApps processPath with
    | some isBlocked =>
      if isBlocked then
        (FWP_ACTION.BLOCK,
          { s with BlockedConnections := (s.BlockedConnections + 1) % U64 })
      else
        (FWP_ACTION.PERMIT,
          { s with AllowedConnections := (s.AllowedConnections + 1) % U64 })
    | none =>
      let r := AddPendingConnection s processId processPath remoteIp remotePort now
      if r.1 > 0 then (FWP_ACTION.BLOCK, r.2) else (FWP_ACTION.PERMIT, r.2)

/-- The only NTSTATUS values `NetGuardDeviceControl` produces. -/
inductive NTSTATUS where
  | STATUS_SUCCESS
  | STATUS_INVALID_DEVICE_REQUEST
deriving DecidableEq, Repr

/-- Little-endian byte image of a value in a `w`-byte field. -/
def bytesLE (w v : Nat) : List Nat :=
  (List.range w).map fun i => v / 256 ^ i % 256

/-- Byte image of one `PENDING_CONNECTION` record as it sits in the
driver's array (MSVC x64 layout, see `SIZEOF_PENDING_CONNECTION`).
Characters of `processPath` beyond the stored string are the zero bytes
left by `RtlZeroMemory`/`wcsncpy` padding. -/
def serializePC (c : PENDING_CONNECTION) : List Nat :=
  bytesLE 8 c.connectionId ++ bytesLE 4 c.processId ++
  ((List.range MAX_PATH_LENGTH).flatMap fun i =>
    bytesLE 2 (c.processPath.getD i 0 % 65536)) ++
  bytesLE 4 c.remoteIp ++ bytesLE 2 c.remotePort ++
  bytesLE 6 0 ++ bytesLE 8 c.timestamp ++
  [if c.responded then 1 else 0, if c.allowed then 1 else 0] ++
  bytesLE 6 0

/-- The `IOCTL_NETGUARD_GET_PENDING` arm of `NetGuardDeviceControl`:
`copySize = min(outputLength, PendingCount * sizeof(PENDING_CONNECTION))`
bytes are copied from the front of the pending array into the output
buffer and reported as `bytesReturned`; the context is not modified.
Result: `((bytes copied, bytesReturned), new context)`. -/
def IOCTL_NETGUARD_GET_PENDING (s : NETGUARD_CONTEXT) (outputLength : Nat) :
    (List Nat × Nat) × NETGUARD_CONTEXT :=
  let copySize :=
    min outputLength (s.PendingConnections.length * SIZEOF_PENDING_CONNECTION)
  (((s.PendingConnections.flatMap serializePC).take copySize, copySize), s)

/-- The scan loop of the `IOCTL_NETGUARD_RESPOND` arm: find the first
record with the given connection id; mark it responded/allowed and remove
it (the C code writes the two flags into the slot and then compacts the
array over it with `RtlMoveMemory`, so the marked record leaves the
observable prefix immediately).  Returns whether a record was found
together with the remaining records in unchanged relative order. -/
def RespondScan (l : List PENDING_CONNECTION) (connId : Nat) (allowed : Bool) :
    Bool × List PENDING_CONNECTION :=
  match l with
  | [] => (false, [])
  | c :: rest =>
    if c.connectionId = connId then (true, rest)
    else
      let r := RespondScan rest connId allowed
      (r.1, c :: r.2)

/-- The `IOCTL_NETGUARD_RESPOND` arm of `NetGuardDeviceControl`: when the
input buffer holds at least a `UINT64` plus a `BOOLEAN` (9 bytes), run the
scan loop; the IRP completes with `STATUS_SUCCESS` whether or not any
record matched (the loop result is not surfaced to the caller). -/
def IOCTL_NETGUARD_RESPOND (s : NETGUARD_CONTEXT) (inputLength connId : Nat)
    (allowed : Bool) : NTSTATUS × NETGUARD_CONTEXT :=
  if 9 ≤ inputLength then
    (NTSTATUS.STATUS_SUCCESS,
      { s with
          PendingConnections := (RespondScan s.PendingConnections connId allowed).2 })
  else (NTSTATUS.STATUS_SUCCESS, s)

/-- The `IOCTL_NETGUARD_ADD_ALLOWED` arm: append the supplied record to
the allowed/blocked app array when the input is large enough and the
array has room; silently do nothing otherwise. -/
def IOCTL_NETGUARD_ADD_ALLOWED (s : NETGUARD_CONTEXT) (inputLength : Nat)
    (app : ALLOWED_APP) : NETGUARD_CONTEXT :=
  if SIZEOF_ALLOWED_APP ≤ inputLength then
    if s.AllowedApps.length < MAX_ALLOWED_APPS then
      { s with AllowedApps := s.AllowedApps ++ [app] }
    else s
  else s

/-- The `IOCTL_NETGUARD_ENABLE` arm. -/
def IOCTL_NETGUARD_ENABLE (s : NETGUARD_CONTEXT) : NETGUARD_CONTEXT :=
  { s with Enabled := true }

/-- The `IOCTL_NETGUARD_DISABLE` arm. -/
def IOCTL_NETGUARD_DISABLE (s : NETGUARD_CONTEXT) : NETGUARD_CONTEXT :=
  { s with Enabled := false }

/-- One externally triggered step of the driver: a classification callback
from the network stack or one state-touching IOCTL from the control
channel. -/
inductive Event where
  | classify (processId : Nat) (processPath : List Nat) (remoteIp remotePort now : Nat)
  | enable
  | disable
  | getPending (outputLength : Nat)
  | respond (inputLength connId : Nat) (allowed : Bool)
  | addAllowed (inputLength : Nat) (app : ALLOWED_APP)
deriving DecidableEq, Repr

/-- State transition of one event. -/
def stepEvent (s : NETGUARD_CONTEXT) : Event → NETGUARD_CONTEXT
  | Event.classify pid path ip port now =>
    (NetGuardClassifyFn s pid path ip port now).2
  | Event.enable => IOCTL_NETGUARD_ENABLE s
  | Event.disable => IOCTL_NETGUARD_DISABLE s
  | Event.getPending len => (IOCTL_NETGUARD_GET_PENDING s len).2
  | Event.respond il cid a => (IOCTL_NETGUARD_RESPOND s il cid a).2
  | Event.addAllowed il app => IOCTL_NETGUARD_ADD_ALLOWED s il app

/-- Run a sequence of events from a given context. -/
def execFrom (s : NETGUARD_CONTEXT) : List Event → NETGUARD_CONTEXT
  | [] => s
  | ev :: evs => execFrom (stepEvent s ev) evs

/-- Run a sequence of events from the zero-initialised context. -/
def execTrace (evs : List Event) : NETGUARD_CONTEXT := execFrom initContext evs

/-- The connection id a classification event hands out through a
successful pending-queue admission, mirroring the branch structure of
`NetGuardClassifyFn`: `none` when the event is not a classification, or
enforcement is disabled, or the process id is a system sentinel, or the
registry decides, or the queue is full. -/
def admittedId (s : NETGUARD_CONTEXT) : Event → Option Nat
  | Event.classify pid path _ _ _ =>
    if s.Enabled = false then none
    else if pid = 0 ∨ pid = 4 then none
    else
      match IsAppInList s.AllowedApps path with
      | some _ => none
      | none =>
        if s.PendingConnections.length < MAX_PENDING_CONNECTIONS then
          some ((s.TotalConnections + 1) % U64)
        else none
  | _ => none

/-- The connection ids returned by the successful admissions along an
event sequence run from context `s`, in order of occurrence. -/
def admittedIdsFrom (s : NETGUARD_CONTEXT) : List Event → List Nat
  | [] => []
  | ev :: evs =>
    match admittedId s ev with
    | some cid => cid :: admittedIdsFrom (stepEvent s ev) evs
    | none => admittedIdsFrom (stepEvent s ev) evs

/-- The connection ids returned by the successful admissions along an
event sequence run from the zero-initialised context. -/
def admittedIds (evs : List Event) : List Nat := admittedIdsFrom initContext evs

/-- Modelled from the spec: the number of bytes `GetPending` would return
if it returned only whole `PendingConnection` records, "as many whole
entries as fit a caller-supplied size budget".  Compared against the
byte count the code actually returns. -/
def getPendingWholeRecordsBytes (s : NETGUARD_CONTEXT) (outputLength : Nat) : Nat :=
  min (outputLength / SIZEOF_PENDING_CONNECTION) s.PendingConnections.length *
    SIZEOF_PENDING_CONNECTION

/-- Structural invariant of the pending queue: the stored connection ids
are strictly increasing from front to back (hence pairwise distinct) and
never exceed the 64-bit admission counter. -/
def IdsOK (s : NETGUARD_CONTEXT) : Prop :=
  (s.PendingConnections.map PENDING_CONNECTION.connectionId).Pairwise (· < ·) ∧
  ∀ c ∈ s.PendingConnections, c.connectionId ≤ s.TotalConnections

/-- A context with enforcement on and one Block registry entry, used to
instantiate hypotheses at a concrete input. -/
def demoRegState : NETGUARD_CONTEXT :=
  { initContext with
      Enabled := true
      AllowedApps := [{ processPath := [97], blocked := true }] }

/-- A context with enforcement on and empty registry and queue. -/
def demoEnabledState : NETGUARD_CONTEXT := IOCTL_NETGUARD_ENABLE initContext

/-- A context reached by enabling enforcement and admitting 256 unknown-app
connections: enforcement on, empty registry, the pending queue at its full
capacity of `MAX_PENDING_CONNECTIONS` unresolved entries carrying ids 1
through 256, and the admission counter at 256. -/
def demoFullState : NETGUARD_CONTEXT :=
  { Enabled := true
    PendingConnections := (List.range MAX_PENDING_CONNECTIONS).map fun i =>
      { connectionId := i + 1, processId := 100, processPath := [97],
        remoteIp := 5, remotePort := 6, timestamp := 7,
        responded := false, allowed := false }
    AllowedApps := []
    TotalConnections := 256
    BlockedConnections := 0
    AllowedConnections := 0 }

/-- An enable, two admissions, a resolution of the first id, and one more
admission: a run interleaving admission and resolution. -/
def demoSeqTrace : List Event :=
  [Event.enable, Event.classify 100 [97] 1 2 3, Event.classify 100 [98] 1 2 3,
   Event.respond 9 1 true, Event.classify 100 [99] 1 2 3]

/-- Enable enforcement and admit one unknown-app connection (id 1). -/
def oneTrace : List Event :=
  [Event.enable, Event.classify 100 [97] 5 6 7]

/-- Enable enforcement and admit three unknown-app connections
(ids 1, 2, 3). -/
def threeTrace : List Event :=
  [Event.enable, Event.classify 100 [97] 1 2 3, Event.classify 100 [98] 1 2 3,
   Event.classify 100 [99] 1 2 3]

/-- The first record admitted by `threeTrace`. -/
def pcA : PENDING_CONNECTION :=
  { connectionId := 1, processId := 100, processPath := [97], remoteIp := 1,
    remotePort := 2, timestamp := 3, responded := false, allowed := false }

/-- The second record admitted by `threeTrace`. -/
def pcB : PENDING_CONNECTION :=
  { connectionId := 2, processId := 100, processPath := [98], remoteIp := 1,
    remotePort := 2, timestamp := 3, responded := false, allowed := false }

/-- The third record admitted by `threeTrace`. -/
def pcC : PENDING_CONNECTION :=
  { connectionId := 3, processId := 100, processPath := [99], remoteIp := 1,
    remotePort := 2, timestamp := 3, responded := false, allowed := false }

/-- Classification with enforcement disabled is an identity PERMIT. -/
theorem classify_of_disabled (s : NETGUARD_CONTEXT) (pid : Nat) (path : List Nat)
    (ip port now : Nat) (h : s.Enabled = false) :
    NetGuardClassifyFn s pid path ip port now = (FWP_ACTION.PERMIT, s) := by
  simp [NetGuardClassifyFn, h]

/-- Classification of the system process ids 0 and 4 is an identity
PERMIT, in any context. -/
theorem classify_of_system (s : NETGUARD_CONTEXT) (pid : Nat) (path : List Nat)
    (ip port now : Nat) (h : pid = 0 ∨ pid = 4) :
    NetGuardClassifyFn s pid path ip port now = (FWP_ACTION.PERMIT, s) := by
  by_cases he : s.Enabled = false
  · exact classify_of_disabled s pid path ip port now he
  · simp [NetGuardClassifyFn, he, h]

/-- Classification on a registry hit: the entry's flag decides, the
matching counter is bumped, nothing else changes. -/
theorem classify_of_registry (s : NETGUARD_CONTEXT) (pid : Nat) (path : List Nat)
    (ip port now : Nat) (b : Bool) (he : s.Enabled = true)
    (h0 : pid ≠ 0) (h4 : pid ≠ 4)
    (hreg : IsAppInList s.AllowedApps path = some b) :
    NetGuardClassifyFn s pid path ip port now =
      if b then
        (FWP_ACTION.BLOCK,
          { s with BlockedConnections := (s.BlockedConnections + 1) % U64 })
      else
        (FWP_ACTION.PERMIT,
          { s with AllowedConnections := (s.AllowedConnections + 1) % U64 }) := by
  simp [NetGuardClassifyFn, he, h0, h4, hreg]

/-- Classification of an unknown app: the pending-queue admission decides,
and the verdict is BLOCK exactly when the returned id is non-zero. -/
theorem classify_of_unknown (s : NETGUARD_CONTEXT) (pid : Nat) (path : List Nat)
    (ip port now : Nat) (he : s.Enabled = true)
    (h0 : pid ≠ 0) (h4 : pid ≠ 4)
    (hreg : IsAppInList s.AllowedApps path = none) :
    NetGuardClassifyFn s pid path ip port now =
      (if (AddPendingConnection s pid path ip port now).1 > 0 then FWP_ACTION.BLOCK
       else FWP_ACTION.PERMIT,
       (AddPendingConnection s pid path ip port now).2) := by
  simp only [NetGuardClassifyFn, he, h0, h4, hreg]
  by_cases hc : 0 < (AddPendingConnection s pid path ip port now).1 <;> simp [hc]

/-- When no record carries the id, the respond scan is a found-nothing
no-op. -/
theorem respondScan_not_found (l : List PENDING_CONNECTION) (cid : Nat) (a : Bool)
    (h : ∀ c ∈ l, c.connectionId ≠ cid) :
    RespondScan l cid a = (false, l) := by
  induction l with
  | nil => rfl
  | cons c rest ih =>
    have hc : c.connectionId ≠ cid := h c (List.mem_cons_self c rest)
    have hrest := ih fun x hx => h x (List.mem_cons_of_mem c hx)
    simp [RespondScan, hc, hrest]

/-- When the id first occurs at the marked position, the respond scan
removes exactly that record and keeps the rest in order. -/
theorem respondScan_found (l1 l2 : List PENDING_CONNECTION)
    (c : PENDING_CONNECTION) (cid : Nat) (a : Bool)
    (hc : c.connectionId = cid) (h1 : ∀ x ∈ l1, x.connectionId ≠ cid) :
    RespondScan (l1 ++ c :: l2) cid a = (true, l1 ++ l2) := by
  induction l1 with
  | nil => simp [RespondScan, hc]
  | cons x rest ih =>
    have hx : x.connectionId ≠ cid := h1 x (List.mem_cons_self x rest)
    have hrest := ih fun y hy => h1 y (List.mem_cons_of_mem x hy)
    simp [RespondScan, hx, hrest]

/-- The respond scan only ever removes records. -/
theorem respondScan_sublist (l : List PENDING_CONNECTION) (cid : Nat) (a : Bool) :
    (RespondScan l cid a).2.Sublist l := by
  induction l with
  | nil => simp [RespondScan]
  | cons c rest ih =>
    by_cases hc : c.connectionId = cid
    · simp [RespondScan, hc]
    · simpa [RespondScan, hc] using ih.cons₂ c

/-- Each record of a list contributes to the first occurrence of its id,
so a list whose ids are pairwise distinct splits at any member. -/
theorem exists_first_split (l : List PENDING_CONNECTION) (cid : Nat)
    (h : ∃ c ∈ l, c.connectionId = cid) :
    ∃ l1 c l2, l = l1 ++ c :: l2 ∧ c.connectionId = cid ∧
      ∀ x ∈ l1, x.connectionId ≠ cid := by
  induction l with
  | nil => simp at h
  | cons x rest ih =>
    by_cases hx : x.connectionId = cid
    · exact ⟨[], x, rest, by simp, hx, by simp⟩
    · obtain ⟨c, hcmem, hcid⟩ := h
      rcases List.mem_cons.mp hcmem with hceq | hcrest
      · exact absurd (hceq ▸ hcid) hx
      · obtain ⟨l1, c', l2, heq, hcid', hl1⟩ := ih ⟨c, hcrest, hcid⟩
        refine ⟨x :: l1, c', l2, by simp [heq], hcid', ?_⟩
        intro y hy
        rcases List.mem_cons.mp hy with hyx | hyl1
        · exact hyx ▸ hx
        · exact hl1 y hyl1

/-- An event that hands out no connection id leaves `TotalConnections`
unchanged and never adds a pending record. -/
theorem admittedId_none_frame (s : NETGUARD_CONTEXT) (ev : Event)
    (h : admittedId s ev = none) :
    (stepEvent s ev).TotalConnections = s.TotalConnections ∧
    (stepEvent s ev).PendingConnections.Sublist s.PendingConnections := by
  cases ev with
  | classify pid path ip port now =>
    by_cases he : s.Enabled = false
    · simp [stepEvent, classify_of_disabled s pid path ip port now he]
    · by_cases hp : pid = 0 ∨ pid = 4
      · simp [stepEvent, classify_of_system s pid path ip port now hp]
      · have he' : s.Enabled = true := by
          cases hEn : s.Enabled
          · exact absurd hEn he
          · rfl
        have hp0 : pid ≠ 0 := fun hx => hp (Or.inl hx)
        have hp4 : pid ≠ 4 := fun hx => hp (Or.inr hx)
        cases hreg : IsAppInList s.AllowedApps path with
        | some b =>
          rw [stepEvent, classify_of_registry s pid path ip port now b he' hp0 hp4 hreg]
          cases b <;> simp
        | none =>
          simp only [admittedId, he', hp0, hp4, hreg] at h
          by_cases hlen : s.PendingConnections.length < MAX_PENDING_CONNECTIONS
          · simp [hlen] at h
          · rw [stepEvent,
              classify_of_unknown s pid path ip port now he' hp0 hp4 hreg]
            simp [AddPendingConnection, hlen]
  | enable => simp [stepEvent, IOCTL_NETGUARD_ENABLE]
  | disable => simp [stepEvent, IOCTL_NETGUARD_DISABLE]
  | getPending len => simp [stepEvent, IOCTL_NETGUARD_GET_PENDING]
  | respond il cid a =>
    refine ⟨?_, ?_⟩ <;> simp only [stepEvent, IOCTL_NETGUARD_RESPOND]
    · by_cases hil : 9 ≤ il <;> simp [hil]
    · by_cases hil : 9 ≤ il
      · simpa [hil] using respondScan_sublist s.PendingConnections cid a
      · simp [hil]
  | addAllowed il app =>
    simp only [stepEvent, IOCTL_NETGUARD_ADD_ALLOWED]
    by_cases hil : SIZEOF_ALLOWED_APP ≤ il
    · by_cases hlen : s.AllowedApps.length < MAX_ALLOWED_APPS <;> simp [hil, hlen]
    · simp [hil]

/-- An event that hands out a connection id is a classification that came
through a successful admission: the id is the incremented 64-bit counter,
the counter keeps that value, and exactly one record carrying the id is
appended at the back of the pending queue. -/
theorem admittedId_some_frame (s : NETGUARD_CONTEXT) (ev : Event) (cid : Nat)
    (h : admittedId s ev = some cid) :
    cid = (s.TotalConnections + 1) % U64 ∧
    (stepEvent s ev).TotalConnections = cid ∧
    ∃ c, (stepEvent s ev).PendingConnections = s.PendingConnections ++ [c] ∧
      c.connectionId = cid := by
  cases ev with
  | classify pid path ip port now =>
    by_cases he : s.Enabled = false
    · simp [admittedId, he] at h
    · by_cases hp : pid = 0 ∨ pid = 4
      · simp [admittedId, he, hp] at h
      · have he' : s.Enabled = true := by
          cases hEn : s.Enabled
          · exact absurd hEn he
          · rfl
        have hp0 : pid ≠ 0 := fun hx => hp (Or.inl hx)
        have hp4 : pid ≠ 4 := fun hx => hp (Or.inr hx)
        cases hreg : IsAppInList s.AllowedApps path with
        | some b => simp [admittedId, he', hp0, hp4, hreg] at h
        | none =>
          by_cases hlen : s.PendingConnections.length < MAX_PENDING_CONNECTIONS
          · simp [admittedId, he', hp0, hp4, hreg, hlen] at h
            subst h
            rw [stepEvent, classify_of_unknown s pid path ip port now he' hp0 hp4 hreg]
            have hx :
                AddPendingConnection s pid path ip port now =
                  ((s.TotalConnections + 1) % U64,
                    { s with
                        TotalConnections := (s.TotalConnections + 1) % U64
                        PendingConnections := s.PendingConnections ++
                          [{ connectionId := (s.TotalConnections + 1) % U64
                             processId := pid
                             processPath := path.take (MAX_PATH_LENGTH - 1)
                             remoteIp := ip
                             remotePort := port
                             timestamp := now
                             responded := false
                             allowed := false }] }) := by
              simp [AddPendingConnection, hlen]
            refine ⟨rfl, by rw [hx], ?_⟩
            exact ⟨{ connectionId := (s.TotalConnections + 1) % U64
                     processId := pid
                     processPath := path.take (MAX_PATH_LENGTH - 1)
                     remoteIp := ip
                     remotePort := port
                     timestamp := now
                     responded := false
                     allowed := false }, by rw [hx], rfl⟩
          · simp [admittedId, he', hp0, hp4, hreg, hlen] at h
  | enable => simp [admittedId] at h
  | disable => simp [admittedId] at h
  | getPending len => simp [admittedId] at h
  | respond il cid' a => simp [admittedId] at h
  | addAllowed il app => simp [admittedId] at h

/-- Bookkeeping along an event sequence run without 64-bit counter
overflow: `TotalConnections` advances by exactly the number of successful
admissions, every handed-out id lies strictly between the starting and
the final counter value, the handed-out ids are strictly increasing, and
the last handed-out id (if any) is the final counter value. -/
theorem execFrom_total_admitted (evs : List Event) :
    ∀ s : NETGUARD_CONTEXT, s.TotalConnections + evs.length < U64 →
      (execFrom s evs).TotalConnections =
        s.TotalConnections + (admittedIdsFrom s evs).length ∧
      (admittedIdsFrom s evs).length ≤ evs.length ∧
      (∀ id ∈ admittedIdsFrom s evs,
        s.TotalConnections < id ∧ id ≤ (execFrom s evs).TotalConnections) ∧
      (admittedIdsFrom s evs).Chain' (· < ·) ∧
      (∀ t, (admittedIdsFrom s evs).getLast? = some t →
        t = (execFrom s evs).TotalConnections) := by
  induction evs with
  | nil => intro s _; simp [execFrom, admittedIdsFrom]
  | cons ev evs ih =>
    intro s hov
    have hlen1 : s.TotalConnections + 1 < U64 := by
      have := evs.length
      simp [List.length_cons] at hov
      omega
    cases hA : admittedId s ev with
    | none =>
      obtain ⟨ht, _⟩ := admittedId_none_frame s ev hA
      have hov' : (stepEvent s ev).TotalConnections + evs.length < U64 := by
        rw [ht]; simp [List.length_cons] at hov; omega
      obtain ⟨h1, h2, h3, h4, h5⟩ := ih (stepEvent s ev) hov'
      refine ⟨?_, ?_, ?_, ?_, ?_⟩ <;>
        simp only [execFrom, admittedIdsFrom, hA]
      · rw [h1, ht]
      · exact Nat.le_succ_of_le h2
      · intro id hid
        obtain ⟨ha, hb⟩ := h3 id hid
        exact ⟨ht ▸ ha, hb⟩
      · exact h4
      · exact h5
    | some cid =>
      obtain ⟨hcid, ht, _⟩ := admittedId_some_frame s ev cid hA
      have hcid' : cid = s.TotalConnections + 1 := by
        rw [hcid, Nat.mod_eq_of_lt hlen1]
      have hov' : (stepEvent s ev).TotalConnections + evs.length < U64 := by
        rw [ht, hcid']; simp [List.length_cons] at hov; omega
      obtain ⟨h1, h2, h3, h4, h5⟩ := ih (stepEvent s ev) hov'
      have hstep : (stepEvent s ev).TotalConnections = s.TotalConnections + 1 :=
        ht.trans hcid'
      refine ⟨?_, ?_, ?_, ?_, ?_⟩ <;>
        simp only [execFrom, admittedIdsFrom, hA]
      · rw [h1, hstep, List.length_cons]; omega
      · simpa using Nat.succ_le_succ h2
      · intro id hid
        rcases List.mem_cons.mp hid with hid1 | hid2
        · subst hid1
          refine ⟨by omega, ?_⟩
          have := h1
          rw [hstep] at this
          rw [this, hcid']
          omega
        · obtain ⟨ha, hb⟩ := h3 id hid2
          rw [hstep] at ha
          exact ⟨by omega, hb⟩
      · rw [List.chain'_cons']
        refine ⟨?_, h4⟩
        intro y hy
        have hmem : y ∈ admittedIdsFrom (stepEvent s ev) evs :=
          List.mem_of_mem_head? hy
        obtain ⟨ha, _⟩ := h3 y hmem
        rw [hstep] at ha
        omega
      · intro t htl
        cases hrest : admittedIdsFrom (stepEvent s ev) evs with
        | nil =>
          rw [hrest] at htl
          simp at htl
          subst htl
          rw [h1, hrest, hstep]
          simpa using hcid'
        | cons a l =>
          rw [hrest, List.getLast?_cons_cons] at htl
          exact h5 t (by rw [hrest]; exact htl)

/-- One overflow-free step preserves the queue-id invariant. -/
theorem idsOK_step (s : NETGUARD_CONTEXT) (ev : Event)
    (hov : s.TotalConnections + 1 < U64) (h : IdsOK s) : IdsOK (stepEvent s ev) := by
  cases hA : admittedId s ev with
  | none =>
    obtain ⟨ht, hsub⟩ := admittedId_none_frame s ev hA
    constructor
    · exact h.1.sublist (hsub.map PENDING_CONNECTION.connectionId)
    · intro c hc
      rw [ht]
      exact h.2 c (hsub.subset hc)
  | some cid =>
    obtain ⟨hcid, ht, c, hp, hc⟩ := admittedId_some_frame s ev cid hA
    have hcid' : cid = s.TotalConnections + 1 := by
      rw [hcid, Nat.mod_eq_of_lt hov]
    constructor
    · rw [hp, List.map_append, List.pairwise_append]
      refine ⟨h.1, by simp, ?_⟩
      intro x hx y hy
      simp only [List.map_cons, List.map_nil, List.mem_singleton] at hy
      subst hy
      obtain ⟨d, hd, hdx⟩ := List.mem_map.mp hx
      have := h.2 d hd
      rw [hc, hcid']
      omega
    · intro d hd
      rw [hp] at hd
      rw [ht, hcid']
      rcases List.mem_append.mp hd with hd1 | hd2
      · have := h.2 d hd1
        omega
      · simp only [List.mem_singleton] at hd2
        subst hd2
        rw [hc, hcid']

/-- The queue-id invariant holds after any overflow-free run. -/
theorem idsOK_execFrom (evs : List Event) :
    ∀ s : NETGUARD_CONTEXT, IdsOK s → s.TotalConnections + evs.length < U64 →
      IdsOK (execFrom s evs) := by
  induction evs with
  | nil => intro s h _; exact h
  | cons ev evs ih =>
    intro s h hov
    have hov1 : s.TotalConnections + 1 < U64 := by
      simp [List.length_cons] at hov; omega
    have hstep : (stepEvent s ev).TotalConnections ≤ s.TotalConnections + 1 := by
      cases hA : admittedId s ev with
      | none => rw [(admittedId_none_frame s ev hA).1]; omega
      | some cid =>
        obtain ⟨hcid, ht, _⟩ := admittedId_some_frame s ev cid hA
        rw [ht, hcid, Nat.mod_eq_of_lt hov1]
    have hov' : (stepEvent s ev).TotalConnections + evs.length < U64 := by
      simp [List.length_cons] at hov; omega
    exact ih (stepEvent s ev) (idsOK_step s ev hov1 h) hov'

/-- The queue-id invariant holds in every reachable overflow-free state. -/
theorem idsOK_execTrace (evs : List Event) (h : evs.length < U64) :
    IdsOK (execTrace evs) := by
  refine idsOK_execFrom evs initContext ⟨by simp [initContext], ?_⟩ ?_
  · intro c hc
    simp [initContext] at hc
  · simpa [initContext] using h

/-- A `w`-byte field serialises to `w` bytes. -/
theorem bytesLE_length (w v : Nat) : (bytesLE w v).length = w := by
  simp [bytesLE]

/-- Every pending record serialises to exactly
`SIZEOF_PENDING_CONNECTION` bytes. -/
theorem serializePC_length (c : PENDING_CONNECTION) :
    (serializePC c).length = SIZEOF_PENDING_CONNECTION := by
  have hpath :
      ((List.range MAX_PATH_LENGTH).flatMap fun i =>
        bytesLE 2 (c.processPath.getD i 0 % 65536)).length = 2 * MAX_PATH_LENGTH := by
    rw [List.length_flatMap]
    simp only [Function.comp_def]
    have : ((List.range MAX_PATH_LENGTH).map fun i =>
        (bytesLE 2 (c.processPath.getD i 0 % 65536)).length) =
        (List.range MAX_PATH_LENGTH).map fun _ => 2 := by
      refine List.map_congr_left ?_
      intro i _
      exact bytesLE_length 2 _
    rw [this, List.map_const', List.sum_replicate, List.length_range, smul_eq_mul]
    omega
  simp only [serializePC, List.length_append, bytesLE_length, hpath, List.length_cons,
    List.length_nil]
  simp [SIZEOF_PENDING_CONNECTION, MAX_PATH_LENGTH]

/-- Taking `m` record-sizes of bytes from the packed serialisation of a
list yields the serialisation of the first `m` records. -/
theorem take_mul_flatMap {α β : Type} (f : α → List β) (n : Nat)
    (hf : ∀ x, (f x).length = n) :
    ∀ (l : List α) (m : Nat), (l.flatMap f).take (m * n) = (l.take m).flatMap f := by
  intro l
  induction l with
  | nil => intro m; simp
  | cons x xs ih =>
    intro m
    cases m with
    | zero => simp
    | succ m' =>
      rw [List.flatMap_cons, List.take_append_eq_append_take]
      have hlen : (f x).length = n := hf x
      have hle : n ≤ (m' + 1) * n := by
        rw [Nat.succ_mul]
        exact Nat.le_add_left n (m' * n)
      rw [List.take_of_length_le (hlen ▸ hle), hlen]
      have hsub : (m' + 1) * n - n = m' * n := by
        simp [Nat.succ_mul]
      rw [hsub, ih m', List.take_succ_cons, List.flatMap_cons]

/-- With an output budget of exactly the packed size of the queue,
`GetPending` returns every record whole, front to back. -/
theorem getPending_data_all (s : NETGUARD_CONTEXT) :
    (IOCTL_NETGUARD_GET_PENDING s
      (s.PendingConnections.length * SIZEOF_PENDING_CONNECTION)).1.1 =
      s.PendingConnections.flatMap serializePC := by
  simp only [IOCTL_NETGUARD_GET_PENDING, min_self]
  rw [take_mul_flatMap serializePC SIZEOF_PENDING_CONNECTION serializePC_length
    s.PendingConnections s.PendingConnections.length, List.take_length]

/-- Claim C8: a classification invoked while enforcement is disabled
returns PERMIT and leaves the whole engine state — counters, pending
queue, registry — unchanged. -/
theorem c8_disabled_passthrough (s : NETGUARD_CONTEXT) (pid : Nat)
    (path : List Nat) (ip port now : Nat) (h : s.Enabled = false) :
    NetGuardClassifyFn s pid path ip port now = (FWP_ACTION.PERMIT, s) :=
  classify_of_disabled s pid path ip port now h

/-- Witness for C8 at a concrete input. -/
theorem c8_disabled_passthrough_witness :
    initContext.Enabled = false ∧
    NetGuardClassifyFn initContext 100 [97] 1 2 3 = (FWP_ACTION.PERMIT, initContext) :=
  ⟨rfl, c8_disabled_passthrough initContext 100 [97] 1 2 3 rfl⟩

/-- Claim C9: a classification of process id 0 or 4 returns PERMIT and
leaves the whole engine state unchanged — no pending record, no counter —
whatever the registry contents and the enabled flag are. -/
theorem c9_system_process_exemption (s : NETGUARD_CONTEXT) (pid : Nat)
    (path : List Nat) (ip port now : Nat) (h : pid = 0 ∨ pid = 4) :
    NetGuardClassifyFn s pid path ip port now = (FWP_ACTION.PERMIT, s) :=
  classify_of_system s pid path ip port now h

/-- Witness for C9: the kernel sentinel process id 4, with enforcement
enabled and a Block registry entry for the very path being classified. -/
theorem c9_system_process_exemption_witness :
    (4 = 0 ∨ 4 = 4) ∧
    NetGuardClassifyFn demoRegState 4 [97] 1 2 3 = (FWP_ACTION.PERMIT, demoRegState) :=
  ⟨Or.inr rfl, c9_system_process_exemption demoRegState 4 [97] 1 2 3 (Or.inr rfl)⟩

/-- Claim C3: with enforcement enabled and a non-system process, a
registry entry for the path decides the verdict before any queue
admission — a Block entry gives BLOCK and bumps `BlockedConnections`, an
Allow entry gives PERMIT and bumps `AllowedConnections`, and in both
cases the pending queue and the admission counter are untouched whatever
the queue's state. -/
theorem c3_registry_precedence (s : NETGUARD_CONTEXT) (pid : Nat)
    (path : List Nat) (ip port now : Nat) (b : Bool) (he : s.Enabled = true)
    (h0 : pid ≠ 0) (h4 : pid ≠ 4)
    (hreg : IsAppInList s.AllowedApps path = some b) :
    NetGuardClassifyFn s pid path ip port now =
      (if b then
        (FWP_ACTION.BLOCK,
          { s with BlockedConnections := (s.BlockedConnections + 1) % U64 })
       else
        (FWP_ACTION.PERMIT,
          { s with AllowedConnections := (s.AllowedConnections + 1) % U64 })) ∧
    (NetGuardClassifyFn s pid path ip port now).2.PendingConnections =
      s.PendingConnections ∧
    (NetGuardClassifyFn s pid path ip port now).2.TotalConnections =
      s.TotalConnections := by
  have h := classify_of_registry s pid path ip port now b he h0 h4 hreg
  refine ⟨h, ?_, ?_⟩ <;> rw [h] <;> cases b <;> simp

/-- Witness for C3 at a concrete Block entry. -/
theorem c3_registry_precedence_witness :
    NetGuardClassifyFn demoRegState 100 [97] 1 2 3 =
      (FWP_ACTION.BLOCK, { demoRegState with BlockedConnections := 1 }) ∧
    (NetGuardClassifyFn demoRegState 100 [97] 1 2 3).2.PendingConnections =
      demoRegState.PendingConnections := by
  have h := c3_registry_precedence demoRegState 100 [97] 1 2 3 true rfl
    (by decide) (by decide) (by decide)
  exact ⟨h.1, h.2.1⟩

set_option maxRecDepth 2000 in
/-- Claim C1 names a code bug.  Evaluation at the failing input: with
enforcement enabled, the path absent from the registry and the pending
queue full of `MAX_PENDING_CONNECTIONS` unresolved entries, the next
unknown-app classification returns PERMIT and changes nothing —
`AddPendingConnection` hands back id 0 and `NetGuardClassifyFn` leaves
its default PERMIT verdict standing and never touches
`BlockedConnections`.  The claim (and the driver's own stated purpose of
blocking unknown applications until approved) requires BLOCK with
`BlockedConnections` incremented: the driver fails open under
saturation. -/
theorem c1_saturation_fails_open :
    demoFullState.Enabled = true ∧
    IsAppInList demoFullState.AllowedApps [97] = none ∧
    demoFullState.PendingConnections.length = MAX_PENDING_CONNECTIONS ∧
    NetGuardClassifyFn demoFullState 100 [97] 5 6 7 =
      (FWP_ACTION.PERMIT, demoFullState) ∧
    demoFullState.BlockedConnections = 0 := by
  refine ⟨rfl, rfl, by decide, by decide, rfl⟩

/-- Claim C2: with enforcement enabled, a non-system process id, no
registry entry for the path and free queue capacity, classification
returns BLOCK and appends exactly one new pending record whose connection
id is the incremented admission counter — an id no earlier admission of
the run ever returned. -/
theorem c2_default_block_fresh_id (evs : List Event) (pid : Nat)
    (path : List Nat) (ip port now : Nat) (hlen : evs.length + 1 < U64)
    (he : (execTrace evs).Enabled = true) (h0 : pid ≠ 0) (h4 : pid ≠ 4)
    (hreg : IsAppInList (execTrace evs).AllowedApps path = none)
    (hcap : (execTrace evs).PendingConnections.length < MAX_PENDING_CONNECTIONS) :
    (NetGuardClassifyFn (execTrace evs) pid path ip port now).1 = FWP_ACTION.BLOCK ∧
    (NetGuardClassifyFn (execTrace evs) pid path ip port now).2.PendingConnections =
      (execTrace evs).PendingConnections ++
        [{ connectionId := (execTrace evs).TotalConnections + 1
           processId := pid
           processPath := path.take (MAX_PATH_LENGTH - 1)
           remoteIp := ip
           remotePort := port
           timestamp := now
           responded := false
           allowed := false }] ∧
    (execTrace evs).TotalConnections + 1 ∉ admittedIds evs := by
  have hlen' : initContext.TotalConnections + evs.length < U64 := by
    simp only [initContext, Nat.zero_add]
    omega
  obtain ⟨h1, h2, h3, _, _⟩ := execFrom_total_admitted evs initContext hlen'
  have htot : (execTrace evs).TotalConnections = (admittedIds evs).length := by
    rw [execTrace, admittedIds, h1]
    simp [initContext]
  have hids : (admittedIds evs).length = (admittedIdsFrom initContext evs).length := rfl
  have hnow : (execTrace evs).TotalConnections + 1 < U64 := by
    rw [htot, hids]
    omega
  have hmod : ((execTrace evs).TotalConnections + 1) % U64 =
      (execTrace evs).TotalConnections + 1 := Nat.mod_eq_of_lt hnow
  have hAdd : AddPendingConnection (execTrace evs) pid path ip port now =
      ((execTrace evs).TotalConnections + 1,
        { execTrace evs with
            TotalConnections := (execTrace evs).TotalConnections + 1
            PendingConnections := (execTrace evs).PendingConnections ++
              [{ connectionId := (execTrace evs).TotalConnections + 1
                 processId := pid
                 processPath := path.take (MAX_PATH_LENGTH - 1)
                 remoteIp := ip
                 remotePort := port
                 timestamp := now
                 responded := false
                 allowed := false }] }) := by
    simp [AddPendingConnection, hcap, hmod]
  have hcl := classify_of_unknown (execTrace evs) pid path ip port now he h0 h4 hreg
  refine ⟨?_, ?_, ?_⟩
  · rw [hcl, hAdd]
    simp
  · rw [hcl, hAdd]
  · intro hmem
    have hb := (h3 _ hmem).2
    have hsame : (execFrom initContext evs).TotalConnections =
        (execTrace evs).TotalConnections := rfl
    omega

/-- Witness for C2: the first classification of an unknown app after
enabling enforcement blocks and admits the fresh id 1. -/
theorem c2_default_block_fresh_id_witness :
    (NetGuardClassifyFn (execTrace [Event.enable]) 100 [97] 1 2 3).1 =
      FWP_ACTION.BLOCK ∧
    (NetGuardClassifyFn (execTrace [Event.enable]) 100 [97] 1 2 3).2.PendingConnections =
      (execTrace [Event.enable]).PendingConnections ++
        [{ connectionId := (execTrace [Event.enable]).TotalConnections + 1
           processId := 100
           processPath := [97].take (MAX_PATH_LENGTH - 1)
           remoteIp := 1
           remotePort := 2
           timestamp := 3
           responded := false
           allowed := false }] ∧
    (execTrace [Event.enable]).TotalConnections + 1 ∉ admittedIds [Event.enable] :=
  c2_default_block_fresh_id [Event.enable] 100 [97] 1 2 3 (by decide) (by decide)
    (by decide) (by decide) (by decide) (by decide)

/-- Claim C6: along any run without 64-bit counter overflow, the
connection ids returned by successful admissions are strictly increasing
and pairwise distinct — also across saturation and resolution-driven
removal, which never reset the admission counter. -/
theorem c6_id_monotonicity (evs : List Event) (hlen : evs.length < U64) :
    (admittedIds evs).Chain' (· < ·) ∧ (admittedIds evs).Nodup := by
  have hlen' : initContext.TotalConnections + evs.length < U64 := by
    simp only [initContext, Nat.zero_add]
    exact hlen
  obtain ⟨_, _, _, h4, _⟩ := execFrom_total_admitted evs initContext hlen'
  have hchain : (admittedIds evs).Chain' (· < ·) := h4
  refine ⟨hchain, ?_⟩
  have hp : (admittedIds evs).Pairwise (· < ·) :=
    List.chain'_iff_pairwise.mp hchain
  exact hp.imp Nat.ne_of_lt

/-- Witness for C6 on a run that interleaves admissions with a
resolution-driven removal: ids 1, 2, 3 in order. -/
theorem c6_id_monotonicity_witness :
    (admittedIds demoSeqTrace).Chain' (· < ·) ∧ (admittedIds demoSeqTrace).Nodup :=
  c6_id_monotonicity demoSeqTrace (by decide)

/-- Claim C10: `TotalConnections` is modified only by a successful
pending-queue admission.  Along any overflow-free run it equals the
number of records ever admitted and (when an admission happened) the most
recently allocated connection id; per step, an event with no successful
admission — registry hit, system-process exemption, disabled path, full
queue, or any IOCTL — leaves it unchanged (and adds no record), while a
successful admission increments it by exactly one and stamps the
incremented value as the new record's connection id. -/
theorem c10_totalConnections_accounting :
    (∀ evs : List Event, evs.length < U64 →
      (execTrace evs).TotalConnections = (admittedIds evs).length ∧
      ∀ t, (admittedIds evs).getLast? = some t →
        t = (execTrace evs).TotalConnections) ∧
    (∀ (s : NETGUARD_CONTEXT) (ev : Event), s.TotalConnections + 1 < U64 →
      (admittedId s ev = none →
        (stepEvent s ev).TotalConnections = s.TotalConnections ∧
        (stepEvent s ev).PendingConnections.Sublist s.PendingConnections) ∧
      ∀ cid, admittedId s ev = some cid →
        (stepEvent s ev).TotalConnections = s.TotalConnections + 1 ∧
        cid = s.TotalConnections + 1 ∧
        ∃ c, (stepEvent s ev).PendingConnections = s.PendingConnections ++ [c] ∧
          c.connectionId = cid) := by
  constructor
  · intro evs hlen
    have hlen' : initContext.TotalConnections + evs.length < U64 := by
      simp only [initContext, Nat.zero_add]
      exact hlen
    obtain ⟨h1, _, _, _, h5⟩ := execFrom_total_admitted evs initContext hlen'
    constructor
    · rw [execTrace, admittedIds, h1]
      simp [initContext]
    · intro t ht
      exact h5 t ht
  · intro s ev hov
    constructor
    · intro hA
      exact admittedId_none_frame s ev hA
    · intro cid hA
      obtain ⟨hcid, ht, hex⟩ := admittedId_some_frame s ev cid hA
      have hcid' : cid = s.TotalConnections + 1 := by
        rw [hcid, Nat.mod_eq_of_lt hov]
      exact ⟨ht.trans hcid', hcid', hex⟩

/-- Witness for C10: the accounting identity on a concrete run with three
admissions and one resolution, and the single-step increment on the first
admission of an enabled empty context. -/
theorem c10_totalConnections_accounting_witness :
    ((execTrace demoSeqTrace).TotalConnections = (admittedIds demoSeqTrace).length ∧
      ∀ t, (admittedIds demoSeqTrace).getLast? = some t →
        t = (execTrace demoSeqTrace).TotalConnections) ∧
    (stepEvent demoEnabledState (Event.classify 100 [97] 1 2 3)).TotalConnections =
      demoEnabledState.TotalConnections + 1 := by
  have h := c10_totalConnections_accounting
  refine ⟨h.1 demoSeqTrace (by decide), ?_⟩
  exact ((h.2 demoEnabledState (Event.classify 100 [97] 1 2 3) (by decide)).2 1
    (by decide)).1

/-- Claim C4 is refuted at a concrete input: with one pending record and
an output budget of 1 byte, the code reports 1 byte returned and copies 1
byte — a strict fragment of the 1064-byte record — whereas data made only
of whole records would have to be empty here (the spec-modelled
whole-record byte count is 0, and 1 is not a multiple of the record
size). -/
theorem c4_getPending_partial_record_counterexample :
    (IOCTL_NETGUARD_GET_PENDING (execTrace oneTrace) 1).1.2 = 1 ∧
    (IOCTL_NETGUARD_GET_PENDING (execTrace oneTrace) 1).1.1.length = 1 ∧
    getPendingWholeRecordsBytes (execTrace oneTrace) 1 = 0 ∧
    (IOCTL_NETGUARD_GET_PENDING (execTrace oneTrace) 1).1.2 ≠
      getPendingWholeRecordsBytes (execTrace oneTrace) 1 ∧
    (execTrace oneTrace).PendingConnections.length = 1 ∧
    1 % SIZEOF_PENDING_CONNECTION ≠ 0 := by decide

/-- Claim C4 amended: `GetPending` removes nothing and returns the first
`min(budget, count * recordSize)` bytes of the records packed front to
back in admission order — truncation is at byte granularity, so the last
record comes back partial unless the budget is a whole multiple of the
record size, in which case the data is exactly the first `min(k, count)`
whole records. -/
theorem c4_getPending_byte_truncation (s : NETGUARD_CONTEXT)
    (outputLength k : Nat) :
    (IOCTL_NETGUARD_GET_PENDING s outputLength).2 = s ∧
    (IOCTL_NETGUARD_GET_PENDING s outputLength).1.2 =
      min outputLength (s.PendingConnections.length * SIZEOF_PENDING_CONNECTION) ∧
    (IOCTL_NETGUARD_GET_PENDING s outputLength).1.1 =
      (s.PendingConnections.flatMap serializePC).take
        (min outputLength (s.PendingConnections.length * SIZEOF_PENDING_CONNECTION)) ∧
    (outputLength = k * SIZEOF_PENDING_CONNECTION →
      (IOCTL_NETGUARD_GET_PENDING s outputLength).1.1 =
        (s.PendingConnections.take k).flatMap serializePC) := by
  refine ⟨rfl, rfl, rfl, ?_⟩
  intro hk
  subst hk
  simp only [IOCTL_NETGUARD_GET_PENDING]
  rcases Nat.le_total k s.PendingConnections.length with hkl | hkl
  · have hmin : min (k * SIZEOF_PENDING_CONNECTION)
        (s.PendingConnections.length * SIZEOF_PENDING_CONNECTION) =
        k * SIZEOF_PENDING_CONNECTION :=
      Nat.min_eq_left (Nat.mul_le_mul_right _ hkl)
    rw [hmin, take_mul_flatMap serializePC SIZEOF_PENDING_CONNECTION serializePC_length]
  · have hmin : min (k * SIZEOF_PENDING_CONNECTION)
        (s.PendingConnections.length * SIZEOF_PENDING_CONNECTION) =
        s.PendingConnections.length * SIZEOF_PENDING_CONNECTION :=
      Nat.min_eq_right (Nat.mul_le_mul_right _ hkl)
    rw [hmin, take_mul_flatMap serializePC SIZEOF_PENDING_CONNECTION serializePC_length,
      List.take_length, List.take_of_length_le hkl]

/-- Witness for the amended C4 at a one-record budget on a one-record
queue: the whole single record comes back and the state is unchanged. -/
theorem c4_getPending_byte_truncation_witness :
    (IOCTL_NETGUARD_GET_PENDING (execTrace oneTrace) 1064).2 = execTrace oneTrace ∧
    (IOCTL_NETGUARD_GET_PENDING (execTrace oneTrace) 1064).1.2 =
      min 1064 ((execTrace oneTrace).PendingConnections.length *
        SIZEOF_PENDING_CONNECTION) ∧
    (IOCTL_NETGUARD_GET_PENDING (execTrace oneTrace) 1064).1.1 =
      ((execTrace oneTrace).PendingConnections.take 1).flatMap serializePC := by
  have h := c4_getPending_byte_truncation (execTrace oneTrace) 1064 1
  exact ⟨h.1, h.2.1, h.2.2.2 (by decide)⟩

/-- In a queue whose ids increase front to back, no record behind the
marked one carries its id. -/
theorem ids_not_in_rest (l1 l2 : List PENDING_CONNECTION) (c : PENDING_CONNECTION)
    (hpw : ((l1 ++ c :: l2).map PENDING_CONNECTION.connectionId).Pairwise (· < ·)) :
    ∀ x ∈ l2, x.connectionId ≠ c.connectionId := by
  intro x hx
  rw [List.map_append, List.pairwise_append] at hpw
  have h2 := hpw.2.1
  rw [List.map_cons, List.pairwise_cons] at h2
  have := h2.1 x.connectionId (List.mem_map.mpr ⟨x, hx, rfl⟩)
  omega

/-- In a queue whose ids increase front to back, no record ahead of the
marked one carries its id. -/
theorem ids_not_in_front (l1 l2 : List PENDING_CONNECTION) (c : PENDING_CONNECTION)
    (hpw : ((l1 ++ c :: l2).map PENDING_CONNECTION.connectionId).Pairwise (· < ·)) :
    ∀ x ∈ l1, x.connectionId ≠ c.connectionId := by
  intro x hx
  rw [List.map_append, List.pairwise_append] at hpw
  have := hpw.2.2 x.connectionId (List.mem_map.mpr ⟨x, hx, rfl⟩)
    c.connectionId (by simp)
  omega

/-- Claim C5 is refuted at the observable control-channel interface: both
the respond that removes pending id 1 and the repeated respond for the
same id complete with the same generic `STATUS_SUCCESS` — the second call
does not yield a distinguishable NotFound result, because whether the scan
loop found a match is never surfaced to the caller. -/
theorem c5_respond_status_counterexample :
    (IOCTL_NETGUARD_RESPOND (execTrace oneTrace) 9 1 true).1 =
      NTSTATUS.STATUS_SUCCESS ∧
    (IOCTL_NETGUARD_RESPOND
      (IOCTL_NETGUARD_RESPOND (execTrace oneTrace) 9 1 true).2 9 1 true).1 =
      NTSTATUS.STATUS_SUCCESS ∧
    (execTrace oneTrace).PendingConnections.length = 1 ∧
    (IOCTL_NETGUARD_RESPOND (execTrace oneTrace) 9 1 true).2.PendingConnections =
      [] := by decide

/-- A respond whose id matches no pending record completes with generic
success and leaves the context untouched. -/
theorem ioctl_respond_no_match (s : NETGUARD_CONTEXT) (il cid : Nat) (a : Bool)
    (h : ∀ c ∈ s.PendingConnections, c.connectionId ≠ cid) :
    IOCTL_NETGUARD_RESPOND s il cid a = (NTSTATUS.STATUS_SUCCESS, s) := by
  have hscan := respondScan_not_found s.PendingConnections cid a h
  have hupd : { s with PendingConnections := s.PendingConnections } = s := rfl
  by_cases hil : 9 ≤ il <;> simp [IOCTL_NETGUARD_RESPOND, hil, hscan, hupd]

/-- Claim C5 amended: resolution is idempotent in its state change.  In
any reachable overflow-free state, a respond for a pending id finds and
removes exactly that record (completing with generic success), a repeated
respond for the same id finds nothing and changes nothing (again
completing with the same generic success — no distinguishable NotFound is
surfaced), and a respond for an id matching no pending record mutates no
entry and leaves the queue unchanged. -/
theorem c5_resolve_idempotent_state (evs : List Event) (hlen : evs.length < U64)
    (cid : Nat) (a1 a2 : Bool) :
    ((∃ c ∈ (execTrace evs).PendingConnections, c.connectionId = cid) →
      (RespondScan (execTrace evs).PendingConnections cid a1).1 = true ∧
      (∃ l1 c l2, (execTrace evs).PendingConnections = l1 ++ c :: l2 ∧
        c.connectionId = cid ∧
        (RespondScan (execTrace evs).PendingConnections cid a1).2 = l1 ++ l2) ∧
      IOCTL_NETGUARD_RESPOND (execTrace evs) 9 cid a1 =
        (NTSTATUS.STATUS_SUCCESS,
          { execTrace evs with
              PendingConnections :=
                (RespondScan (execTrace evs).PendingConnections cid a1).2 }) ∧
      (RespondScan
        (IOCTL_NETGUARD_RESPOND (execTrace evs) 9 cid a1).2.PendingConnections
        cid a2).1 = false ∧
      IOCTL_NETGUARD_RESPOND
        (IOCTL_NETGUARD_RESPOND (execTrace evs) 9 cid a1).2 9 cid a2 =
        (NTSTATUS.STATUS_SUCCESS,
          (IOCTL_NETGUARD_RESPOND (execTrace evs) 9 cid a1).2)) ∧
    ((∀ c ∈ (execTrace evs).PendingConnections, c.connectionId ≠ cid) →
      IOCTL_NETGUARD_RESPOND (execTrace evs) 9 cid a1 =
        (NTSTATUS.STATUS_SUCCESS, execTrace evs)) := by
  have hInv := idsOK_execTrace evs hlen
  constructor
  · intro hmem
    obtain ⟨l1, c, l2, hsplit, hc, hl1⟩ :=
      exists_first_split (execTrace evs).PendingConnections cid hmem
    have hpw : ((l1 ++ c :: l2).map PENDING_CONNECTION.connectionId).Pairwise
        (· < ·) := by
      have := hInv.1
      rw [hsplit] at this
      exact this
    have hrest := ids_not_in_rest l1 l2 c hpw
    have hscan : RespondScan (execTrace evs).PendingConnections cid a1 =
        (true, l1 ++ l2) := by
      rw [hsplit]
      exact respondScan_found l1 l2 c cid a1 hc hl1
    have hnone : ∀ x ∈ l1 ++ l2, x.connectionId ≠ cid := by
      intro x hx
      rcases List.mem_append.mp hx with hx1 | hx2
      · exact hl1 x hx1
      · exact hc ▸ hrest x hx2
    have hioctl1 : IOCTL_NETGUARD_RESPOND (execTrace evs) 9 cid a1 =
        (NTSTATUS.STATUS_SUCCESS,
          { execTrace evs with
              PendingConnections :=
                (RespondScan (execTrace evs).PendingConnections cid a1).2 }) := by
      simp [IOCTL_NETGUARD_RESPOND]
    have hpend1 :
        (IOCTL_NETGUARD_RESPOND (execTrace evs) 9 cid a1).2.PendingConnections =
          l1 ++ l2 := by
      rw [hioctl1]
      simp [hscan]
    have hscan2 : RespondScan
        (IOCTL_NETGUARD_RESPOND (execTrace evs) 9 cid a1).2.PendingConnections
        cid a2 = (false,
          (IOCTL_NETGUARD_RESPOND (execTrace evs) 9 cid a1).2.PendingConnections) := by
      rw [hpend1]
      exact respondScan_not_found (l1 ++ l2) cid a2 hnone
    refine ⟨by rw [hscan], ⟨l1, c, l2, hsplit, hc, by rw [hscan]⟩, hioctl1, ?_, ?_⟩
    · rw [hscan2]
    · refine ioctl_respond_no_match _ 9 cid a2 ?_
      rw [hpend1]
      exact hnone
  · intro hni
    exact ioctl_respond_no_match _ 9 cid a1 hni

/-- Witness for the amended C5 at a concrete run with pending id 1. -/
theorem c5_resolve_idempotent_state_witness :
    (RespondScan (execTrace oneTrace).PendingConnections 1 true).1 = true ∧
    (RespondScan
      (IOCTL_NETGUARD_RESPOND (execTrace oneTrace) 9 1 true).2.PendingConnections
      1 false).1 = false ∧
    IOCTL_NETGUARD_RESPOND
      (IOCTL_NETGUARD_RESPOND (execTrace oneTrace) 9 1 true).2 9 1 false =
      (NTSTATUS.STATUS_SUCCESS,
        (IOCTL_NETGUARD_RESPOND (execTrace oneTrace) 9 1 true).2) := by
  have h := (c5_resolve_idempotent_state oneTrace (by decide) 1 true false).1
    (by decide)
  exact ⟨h.1, h.2.2.2.1, h.2.2.2.2⟩

/-- Claim C7: resolving an id that sits strictly in the middle of the
queue removes exactly that record, keeps the remaining records in their
relative admission order, and a subsequent `GetPending` with a
whole-queue budget reports exactly the remaining records, oldest first. -/
theorem c7_order_preservation (evs : List Event) (hlen : evs.length < U64)
    (l1 l2 : List PENDING_CONNECTION) (c : PENDING_CONNECTION) (a : Bool)
    (hsplit : (execTrace evs).PendingConnections = l1 ++ c :: l2)
    (_hne1 : l1 ≠ []) (_hne2 : l2 ≠ []) :
    RespondScan (execTrace evs).PendingConnections c.connectionId a =
      (true, l1 ++ l2) ∧
    (IOCTL_NETGUARD_RESPOND (execTrace evs) 9 c.connectionId a).2.PendingConnections =
      l1 ++ l2 ∧
    (IOCTL_NETGUARD_GET_PENDING
      (IOCTL_NETGUARD_RESPOND (execTrace evs) 9 c.connectionId a).2
      ((l1 ++ l2).length * SIZEOF_PENDING_CONNECTION)).1.1 =
      (l1 ++ l2).flatMap serializePC := by
  have hInv := idsOK_execTrace evs hlen
  have hpw : ((l1 ++ c :: l2).map PENDING_CONNECTION.connectionId).Pairwise
      (· < ·) := by
    have := hInv.1
    rw [hsplit] at this
    exact this
  have hfront := ids_not_in_front l1 l2 c hpw
  have hscan : RespondScan (execTrace evs).PendingConnections c.connectionId a =
      (true, l1 ++ l2) := by
    rw [hsplit]
    exact respondScan_found l1 l2 c c.connectionId a rfl hfront
  have hpend : (IOCTL_NETGUARD_RESPOND (execTrace evs) 9 c.connectionId a).2.PendingConnections =
      l1 ++ l2 := by
    simp [IOCTL_NETGUARD_RESPOND, hscan]
  refine ⟨hscan, hpend, ?_⟩
  have hall := getPending_data_all
    (IOCTL_NETGUARD_RESPOND (execTrace evs) 9 c.connectionId a).2
  rw [hpend] at hall
  exact hall

/-- Witness for C7: resolving the middle id 2 of a three-record queue
leaves records 1 and 3 in order, and `GetPending` reports exactly them. -/
theorem c7_order_preservation_witness :
    RespondScan (execTrace threeTrace).PendingConnections 2 true =
      (true, [pcA, pcC]) ∧
    (IOCTL_NETGUARD_RESPOND (execTrace threeTrace) 9 2 true).2.PendingConnections =
      [pcA, pcC] ∧
    (IOCTL_NETGUARD_GET_PENDING
      (IOCTL_NETGUARD_RESPOND (execTrace threeTrace) 9 2 true).2
      ([pcA, pcC].length * SIZEOF_PENDING_CONNECTION)).1.1 =
      [pcA, pcC].flatMap serializePC :=
  c7_order_preservation threeTrace (by decide) [pcA] [pcC] pcB true (by decide)
    (by decide) (by decide)
